import Mathlib

/-!
Verification of the rapi request-dispatch and middleware pipeline.

The Go sources are shallowly embedded: pure helpers of utils.go become Lean
functions over lists of characters, the stateful send closure of
methodHandler.ServeHTTP becomes explicit state passing over a wire state,
and the middleware chain construction becomes a recursive interpreter that
mirrors the closure list built in ServeHTTP.  Collaborators the design
document declares out of scope (the JSON serializer, the compressors, the
reflective field-name resolution, net/http primitives) are modelled at
their interface boundary, as noted at each definition.
-/

namespace Rapi

/-- Go strings are modelled as lists of characters so that every string
operation is structural recursion and reduces in the kernel. -/
abbrev GoStr := List Char

/-- Model of strings.TrimSpace (ASCII whitespace suffices for the header
values this code processes). -/
def trimChars (s : GoStr) : GoStr :=
  ((s.dropWhile Char.isWhitespace).reverse.dropWhile Char.isWhitespace).reverse

/-- Model of strings.Split with a one-character separator. -/
def splitOnChar (sep : Char) : GoStr → List GoStr
  | [] => [[]]
  | c :: rest =>
    let r := splitOnChar sep rest
    if c = sep then [] :: r
    else match r with
      | [] => [[c]]
      | g :: gs => (c :: g) :: gs

/-- Model of strings.SplitN(s, sep, 2) with a one-character separator:
the part before the first separator, and the rest when the separator
occurs. -/
def splitN2 (sep : Char) : GoStr → GoStr × Option GoStr
  | [] => ([], none)
  | c :: rest =>
    if c = sep then ([], some rest)
    else
      let r := splitN2 sep rest
      (c :: r.1, r.2)

/-- Model of strings.ToLower for the ASCII header material handled here. -/
def lowerChars (s : GoStr) : GoStr := s.map Char.toLower

/-- Model of strings.ToUpper for the ASCII method names handled here. -/
def upperChars (s : GoStr) : GoStr := s.map Char.toUpper

/-- Decimal digit character for a value below ten. -/
def digitChar (n : Nat) : Char := Char.ofNat (48 + n)

/-- Fuel-driven decimal printer helper (fuel keeps the recursion
structural; natDigits supplies enough fuel). -/
def natDigitsAux : Nat → Nat → List Char → List Char
  | 0, _, acc => acc
  | fuel + 1, n, acc =>
    if n < 10 then digitChar n :: acc
    else natDigitsAux fuel (n / 10) (digitChar (n % 10) :: acc)

/-- Decimal digits of a natural number, mirroring strconv.FormatInt for
nonnegative values. -/
def natDigits (n : Nat) : List Char := natDigitsAux (n + 1) n []

/-- Model of strconv.FormatInt base 10. -/
def intToDecStr (n : Int) : GoStr :=
  if n < 0 then '-' :: natDigits (-n).toNat else natDigits n.toNat

/-- Numeric value of a decimal digit character, none for non-digits. -/
def digitVal (c : Char) : Option Nat :=
  if '0' ≤ c ∧ c ≤ '9' then some (c.toNat - 48) else none

/-- Accumulating decimal reader over digit characters. -/
def parseDigitsAux : List Char → Nat → Option Nat
  | [], acc => some acc
  | c :: rest, acc =>
    match digitVal c with
    | none => none
    | some d => parseDigitsAux rest (acc * 10 + d)

/-- Reads a nonempty all-digit string as a natural number. -/
def parseDigits : List Char → Option Nat
  | [] => none
  | c :: rest => parseDigitsAux (c :: rest) 0

/-- A JSON natural-number literal: a nonempty digit run without a leading
zero (except the literal zero itself), as the serializer accepts for
integer fields. -/
def jsonNatLit : GoStr → Option Nat
  | [] => none
  | c :: rest =>
    if c = '0' then (if rest = [] then some 0 else none)
    else parseDigits (c :: rest)

/-- Model of strconv.ParseFloat truncated toward zero via the Go int
conversion, restricted to the plain decimal literals the quality
attribute of an encoding alternative is written in (collaborator model
of the strconv parser at its interface boundary). -/
def parseDecTrunc (s : GoStr) : Option Int :=
  let core : GoStr → Option Nat := fun t =>
    let intPart := t.takeWhile fun c => (digitVal c).isSome
    let rest := t.dropWhile fun c => (digitVal c).isSome
    match rest with
    | [] => if intPart = [] then none else parseDigits intPart
    | '.' :: frac =>
      if frac.all (fun c => (digitVal c).isSome) ∧ (intPart ≠ [] ∨ frac ≠ []) then
        if intPart = [] then some 0 else parseDigits intPart
      else none
    | _ => none
  match s with
  | '-' :: t => (core t).map fun n => -(n : Int)
  | '+' :: t => (core t).map fun n => (n : Int)
  | t => (core t).map fun n => (n : Int)

/-! ## HTTP header model

net/http Header is a map from canonical keys to value lists and is
modelled extensionally as that map; a missing key and a key mapped to
the empty list are observably identical (Get returns the empty string
for both, Add and Set behave the same), matching the textproto
behaviour. -/

abbrev Header := GoStr → List GoStr

/-- The empty header map. -/
def hEmpty : Header := fun _ => []

/-- Header.Set: replace the value list of the key by the single value. -/
def hSet (h : Header) (k v : GoStr) : Header :=
  fun k2 => if k2 = k then [v] else h k2

/-- Header.Add: append the value to the value list of the key. -/
def hAdd (h : Header) (k v : GoStr) : Header :=
  fun k2 => if k2 = k then h k ++ [v] else h k2

/-- Header.Del: remove the key. -/
def hDel (h : Header) (k : GoStr) : Header :=
  fun k2 => if k2 = k then [] else h k2

/-- Header.Get: the first value stored under the key. -/
def hGet (h : Header) (k : GoStr) : Option GoStr :=
  (h k).head?

/-! ## parseHTTPHeaderOptions (utils.go) -/

/-- One parsed header alternative: its key-value pairs in order.  The Map
field of the Go struct is first-occurrence-wins and is recovered by
optMapGet. -/
structure HdrOpt where
  keyVals : List (GoStr × GoStr)
  deriving DecidableEq, Repr

/-- Lookup in the Map field of httpHeaderOption (first occurrence wins,
exactly how the Go loop fills the map). -/
def optMapGet (o : HdrOpt) (k : GoStr) : Option GoStr :=
  (o.keyVals.find? fun kv => kv.1 = k).map fun kv => kv.2

/-- Parses one comma-separated alternative into its semicolon-separated
key=value attributes, mirroring the inner loop of
parseHTTPHeaderOptions. -/
def parseOneOption (o : GoStr) : HdrOpt :=
  { keyVals :=
      (splitOnChar ';' o).filterMap fun kv =>
        let kv := trimChars kv
        let sp := splitN2 '=' kv
        let key := trimChars sp.1
        if key = [] then none
        else some (key, trimChars (sp.2.getD [])) }

/-- parseHTTPHeaderOptions: split the directive on commas, trim, parse
each alternative, and drop alternatives without any key-value pair. -/
def parseHTTPHeaderOptions (directive : GoStr) : List HdrOpt :=
  (splitOnChar ',' directive).filterMap fun o =>
    let opt := parseOneOption (trimChars o)
    if opt.keyVals = [] then none else some opt

/-! ## getContentEncoder (utils.go) -/

/-- The body transform selected by content negotiation.  The gzip and
deflate writers of the standard library are collaborators; a selected
transform is recorded with its compression level. -/
inductive EncChoice
  | identity
  | egzip (level : Int)
  | edeflate (level : Int)
  deriving DecidableEq, Repr

def sGzip : GoStr := "gzip".data
def sDeflate : GoStr := "deflate".data
def sQ : GoStr := "q".data

/-- The loop body of getContentEncoder over the parsed alternatives: the
q attribute, when present, must parse (else the whole call errors) and,
for a gzip or deflate alternative, must truncate to a level between 0
and 9; the first gzip or deflate alternative decides the transform. -/
def pickEncoder : List HdrOpt → Except GoStr EncChoice
  | [] => .ok .identity
  | o :: rest =>
    let qRes : Except GoStr (Option Int) :=
      match optMapGet o sQ with
      | none => .ok none
      | some s =>
        match parseDecTrunc s with
        | none => .error "quality level parse error".data
        | some q => .ok (some q)
    match qRes with
    | .error e => .error e
    | .ok q =>
      match o.keyVals with
      | [] => pickEncoder rest
      | kv0 :: _ =>
        if kv0.1 = sGzip then
          match q with
          | none => .ok (.egzip (-1))
          | some lv =>
            if 0 ≤ lv ∧ lv ≤ 9 then .ok (.egzip lv)
            else .error "invalid quality level".data
        else if kv0.1 = sDeflate then
          match q with
          | none => .ok (.edeflate (-1))
          | some lv =>
            if 0 ≤ lv ∧ lv ≤ 9 then .ok (.edeflate lv)
            else .error "invalid quality level".data
        else pickEncoder rest

/-- getContentEncoder: negotiate the transform from the Accept-Encoding
value.  The Content-Encoding header mutation performed inside the Go
function is applied by sendCore according to the returned choice, which
is observably the same order (no header is read in between). -/
def getContentEncoder (acceptEncoding : GoStr) : Except GoStr EncChoice :=
  pickEncoder (parseHTTPHeaderOptions acceptEncoding)

/-! ## The send closure of methodHandler.ServeHTTP -/

/-- Bytes written to the transport.  The gzip and deflate streams are
black-box collaborators, so a compressed body is recorded as the chosen
transform applied to the uncompressed payload, which decompression
inverts. -/
inductive BodyChunk
  | raw (s : GoStr)
  | gzipped (level : Int) (s : GoStr)
  | deflated (level : Int) (s : GoStr)
  deriving DecidableEq, Repr

/-- Decompression at the gzip collaborator boundary. -/
def decompressGzip : Option BodyChunk → Option GoStr
  | some (.gzipped _ s) => some s
  | _ => none

def sHEAD : GoStr := "HEAD".data
def sGET : GoStr := "GET".data
def sDELETE : GoStr := "DELETE".data
def sPOST : GoStr := "POST".data
def sPUT : GoStr := "PUT".data
def sPATCH : GoStr := "PATCH".data
def hContentType : GoStr := "Content-Type".data
def hContentLength : GoStr := "Content-Length".data
def hContentEncoding : GoStr := "Content-Encoding".data
def ctJSON : GoStr := "application/json; charset=utf-8".data
def ctPlain : GoStr := "text/plain; charset=utf-8".data

/-- The per-call inputs of one invocation of the send closure.  The
handler output is a black-box serializer collaborator, so it enters the
model as its JSON serialization outJSON; extraHeaders is the sequence of
Header.Add calls the nested loops over the variadic headers perform (Go
map iteration order is abstracted as the given sequence). -/
structure SendInput where
  method : GoStr
  acceptEncoding : GoStr
  allowEncoding : Bool
  outJSON : GoStr
  code : Int
  extraHeaders : List (GoStr × GoStr)
  deriving DecidableEq, Repr

/-- One response written to the transport: headers, status code and body
bytes (none when no body byte is written). -/
structure Written where
  headers : Header
  code : Int
  body : Option BodyChunk

/-- Model of net/http http.Error (also of the httpError wrapper of the
repository): plain-text content type, nosniff, the message plus a
newline as body. -/
def httpErrorWritten (msg : GoStr) (code : Int) : Written :=
  { headers := hSet (hSet hEmpty hContentType ctPlain)
      "X-Content-Type-Options".data "nosniff".data
    code := code
    body := some (.raw (msg ++ ['\n'])) }

/-- The encoder selection step of the send closure: only consulted when
AllowEncoding is set, otherwise the no-op writer is used. -/
def negotiate (si : SendInput) : Except GoStr EncChoice :=
  if si.allowEncoding then getContentEncoder si.acceptEncoding else .ok .identity

/-- The body bytes handed to the selected transform. -/
def bodyFor : EncChoice → GoStr → BodyChunk
  | .identity, d => .raw d
  | .egzip l, d => .gzipped l d
  | .edeflate l, d => .deflated l d

/-- The header mutations of the send closure for a selected transform:
the Content-Encoding header the encoder selection installed, then the
extra headers added in sequence, the forced JSON content type, and
Content-Length set only for the no-op writer (deleted otherwise). -/
def sendHeadersFor (si : SendInput) (choice : EncChoice) : Header :=
  let data := si.outJSON ++ ['\n']
  let h0 : Header :=
    match choice with
    | .identity => hEmpty
    | .egzip _ => hSet hEmpty hContentEncoding sGzip
    | .edeflate _ => hSet hEmpty hContentEncoding sDeflate
  let h1 := si.extraHeaders.foldl (fun a kv => hAdd a kv.1 kv.2) h0
  let h2 := hSet h1 hContentType ctJSON
  match choice with
  | .identity => hSet h2 hContentLength (natDigits data.length)
  | _ => hDel h2 hContentLength

/-- The body of the send closure after the sent-flag compare-and-swap,
shared verbatim by the part_004 and part_002 variants: select the
transform, serialize with a trailing newline, apply the header
mutations, write the status, and stop before the body for a HEAD
request.  The write-deadline race around the body write is a timing
concern outside this model; the body recorded is the one handed to the
transform. -/
def sendCore (si : SendInput) : Written :=
  match negotiate si with
  | .error _ => httpErrorWritten "invalid accept encoding".data 400
  | .ok choice =>
    if si.method = sHEAD then
      { headers := sendHeadersFor si choice, code := si.code, body := none }
    else
      { headers := sendHeadersFor si choice, code := si.code,
        body := some (bodyFor choice (si.outJSON ++ ['\n'])) }

/-- A concrete send input with encoding disallowed, used in witnesses. -/
def siPlain : SendInput :=
  { method := sGET, acceptEncoding := [], allowEncoding := false,
    outJSON := "7".data, code := 200, extraHeaders := [] }

/-- A concrete send input offering gzip at level nine. -/
def siGzipQ9 : SendInput :=
  { method := sGET, acceptEncoding := "gzip;q=9".data, allowEncoding := true,
    outJSON := "7".data, code := 200, extraHeaders := [] }

/-- A concrete send input offering deflate before gzip. -/
def siDeflateGzip : SendInput :=
  { method := sGET, acceptEncoding := "deflate, gzip".data, allowEncoding := true,
    outJSON := "7".data, code := 200, extraHeaders := [] }

/-- The transport state a request accumulates: the sent flag guarded by
the compare-and-swap, and the responses written so far. -/
structure WireState where
  sent : Bool
  writes : List Written

/-- Outcome of one call to the send closure: the new wire state and, for
the panicking variant, the panic message when the call was rejected. -/
structure SendStep where
  state : WireState
  panicMsg : Option GoStr

/-- The send closure of the part_004 variant of methodHandler.ServeHTTP:
the compare-and-swap on the sent flag happens before anything is
written, and a second call panics with already sent. -/
def sendStepV004 (si : SendInput) (st : WireState) : SendStep :=
  if st.sent then { state := st, panicMsg := some "already sent".data }
  else { state := { sent := true, writes := st.writes ++ [sendCore si] }, panicMsg := none }

/-- The send closure of the part_002 variant: identical except that a
second call returns silently instead of panicking. -/
def sendStepV002 (si : SendInput) (st : WireState) : SendStep :=
  if st.sent then { state := st, panicMsg := none }
  else { state := { sent := true, writes := st.writes ++ [sendCore si] }, panicMsg := none }

/-- The wire state before any send. -/
def freshWire : WireState := { sent := false, writes := [] }

/-! ## The middleware chain of methodHandler.ServeHTTP (part_004)

ServeHTTP builds a list of closures: element zero wraps the terminal
handler behind a sent-flag check, then the middlewares are appended in
reverse order, each wrapping its predecessor behind the same check, and
the last element is invoked.  The entry function below is that
construction: the entry point for a middleware list is the wrapper of
its head whose next step is the entry point for its tail, terminating at
the terminal wrapper.  A middleware or handler body is abstracted to the
sequence of send and next calls it performs, the observable actions of a
DoFunc or MiddlewareFunc; the probe log records which bodies started
running.  A Go panic aborts the request, modelled with Except. -/

/-- What a middleware body does: return, call send then continue, or call
next then continue. -/
inductive Prog
  | ret
  | psend (k : Prog)
  | pnext (k : Prog)
  deriving DecidableEq, Repr

/-- What a terminal handler body does (a DoFunc has no next step). -/
inductive TProg
  | tret
  | tsend (k : TProg)
  deriving DecidableEq, Repr

/-- True when the program never calls next. -/
def Prog.noNext : Prog → Bool
  | .ret => true
  | .psend k => k.noNext
  | .pnext _ => false

/-- True when the program calls send at least once (on its main path). -/
def Prog.usesSend : Prog → Bool
  | .ret => false
  | .psend _ => true
  | .pnext k => k.usesSend

/-- The request state the chain threads: the sent flag, the number of
successful sends, and the probe log of bodies that started running. -/
structure ChainSt where
  sent : Bool
  sends : Nat
  log : List Nat
  deriving DecidableEq, Repr

/-- The send closure as seen from the chain of the part_004 variant: a
compare-and-swap that panics with already sent if the flag is already
set, and otherwise records one successful send.  The written response is
covered by sendCore; here only the flag and the count matter. -/
def chainSend (st : ChainSt) : Except GoStr ChainSt :=
  if st.sent then .error "already sent".data
  else .ok { st with sent := true, sends := st.sends + 1 }

/-- Runs a middleware body given the next step of the chain. -/
def runProg : Prog → (ChainSt → Except GoStr ChainSt) → ChainSt → Except GoStr ChainSt
  | .ret, _, st => .ok st
  | .psend k, nx, st =>
    match chainSend st with
    | .error e => .error e
    | .ok st2 => runProg k nx st2
  | .pnext k, nx, st =>
    match nx st with
    | .error e => .error e
    | .ok st2 => runProg k nx st2

/-- Runs a terminal handler body. -/
def runTProg : TProg → ChainSt → Except GoStr ChainSt
  | .tret, st => .ok st
  | .tsend k, st =>
    match chainSend st with
    | .error e => .error e
    | .ok st2 => runTProg k st2

/-- The entry point ServeHTTP invokes for a middleware list and terminal
handler: every wrapper, the terminal one included, checks the sent flag
before running its body (the nil checks on h.do and on a middleware are
the isSome pattern match here: middlewares in the list are the non-nil
ones, and an absent terminal handler is none). -/
def entry : List (Nat × Prog) → Option (Nat × TProg) → ChainSt → Except GoStr ChainSt
  | [], term, st =>
    if st.sent then .ok st
    else
      match term with
      | none => .ok st
      | some it => runTProg it.2 { st with log := st.log ++ [it.1] }
  | ip :: rest, term, st =>
    if st.sent then .ok st
    else runProg ip.2 (entry rest term) { st with log := st.log ++ [ip.1] }

/-- The tail of the part_004 ServeHTTP: invoke the chain entry point and
panic with send must be called when the chain completed without any
send. -/
def runChainV004 (mws : List (Nat × Prog)) (term : Option (Nat × TProg))
    (st : ChainSt) : Except GoStr ChainSt :=
  match entry mws term st with
  | .error e => .error e
  | .ok st2 => if st2.sent then .ok st2 else .error "send must be called".data

/-- The chain state before any middleware runs. -/
def freshChain : ChainSt := { sent := false, sends := 0, log := [] }

/-- The effect one chain step can have on the sent flag and the send
count: either both are untouched, or the flag flips from unset to set
with exactly one more successful send. -/
def stepRel (a b : ChainSt) : Prop :=
  (b.sent = a.sent ∧ b.sends = a.sends) ∨
  (a.sent = false ∧ b.sent = true ∧ b.sends = a.sends + 1)

/-! ## Pattern-level method dispatch (part_004) -/

/-- Lookup in a map from method name to method handler (handlers are
identified by a tag; the map is an association list filled by Register,
which rejects duplicate keys). -/
def mmFind : List (GoStr × Nat) → GoStr → Option Nat
  | [], _ => none
  | e :: rest, k => if e.1 = k then some e.2 else mmFind rest k

/-- The observable outcome of patternHandler.ServeHTTP: either the
request is delegated to a method handler, or an error status is written
and no handler (hence no middleware) is invoked. -/
inductive DispatchOutcome
  | dispatched (mh : Nat)
  | errorResponse (code : Int)
  deriving DecidableEq, Repr

/-- patternHandler.ServeHTTP of part_004: look up the request method,
fall back to the method-agnostic empty-string handler, else report the
error and answer 405. -/
def patternServeHTTP (handlers : List (GoStr × Nat)) (method : GoStr) : DispatchOutcome :=
  match mmFind handlers method with
  | some mh => .dispatched mh
  | none =>
    match mmFind handlers [] with
    | some mh => .dispatched mh
    | none => .errorResponse 405

/-- Go map assignment on the method map: overwrite the entry when the
key exists, else append it. -/
def mmInsert : List (GoStr × Nat) → GoStr → Nat → List (GoStr × Nat)
  | [], k, v => [(k, v)]
  | e :: rest, k, v => if e.1 = k then (k, v) :: rest else e :: mmInsert rest k v

/-- The tail of patternHandler.Register shared by every accepted method:
a duplicate registration panics, the handler is inserted, and a GET
registration also assigns HEAD the same method handler. -/
def registerInsert (handlers : List (GoStr × Nat)) (m : GoStr) (mh : Nat) :
    Except GoStr (List (GoStr × Nat)) :=
  if (mmFind handlers m).isSome then .error "method already registered".data
  else
    let h1 := mmInsert handlers m mh
    .ok (if m = sGET then mmInsert h1 sHEAD mh else h1)

/-- patternHandler.Register of part_004: the input prototype is copied
first (serializer collaborator, assumed copyable here), the method is
uppercased and validated (query-bindable methods require a struct-shaped
input, other accepted verbs skip the shape check, anything else panics),
then the shared registerInsert tail runs.  inStruct is the reflective
struct-or-struct-pointer test on the copied prototype (field-resolution
collaborator boundary). -/
def registerV004 (handlers : List (GoStr × Nat)) (method : GoStr) (mh : Nat)
    (inStruct : Bool) : Except GoStr (List (GoStr × Nat)) :=
  let m := upperChars method
  if m = [] ∨ m = sGET ∨ m = sDELETE then
    if inStruct then registerInsert handlers m mh
    else .error "input must be struct or struct pointer".data
  else if m = sPOST ∨ m = sPUT ∨ m = sPATCH then registerInsert handlers m mh
  else .error "method not allowed".data

/-! ## Handler.Handle variants (part_001 versus handler.go and part_004) -/

/-- The part_001 root handler state: its own pattern-to-PatternHandler
map (the serveMux registration is guarded by this map, so it never
conflicts).  Pattern handlers are identified by allocation order. -/
structure HState001 where
  patternHandlers : List (GoStr × Nat)
  nextId : Nat
  deriving DecidableEq, Repr

/-- Handler.Handle of part_001: return the existing pattern handler when
the pattern is already handled, otherwise allocate, register and return
a new one. -/
def handleV001 (st : HState001) (pattern : GoStr) : Nat × HState001 :=
  match mmFind st.patternHandlers pattern with
  | some ph => (ph, st)
  | none =>
    (st.nextId,
     { patternHandlers := st.patternHandlers ++ [(pattern, st.nextId)],
       nextId := st.nextId + 1 })

/-- The root handler state of handler.go and part_004: only the ServeMux
routing table, no pattern map of its own. -/
structure MuxState where
  entries : List (GoStr × Nat)
  nextId : Nat
  deriving DecidableEq, Repr

/-- Modelled collaborator: net/http ServeMux.Handle, which panics when
the pattern is empty or already registered and otherwise records the
pattern. -/
def muxHandle (mux : List (GoStr × Nat)) (pattern : GoStr) (ph : Nat) :
    Except GoStr (List (GoStr × Nat)) :=
  if pattern = [] then .error "http: invalid pattern".data
  else if (mmFind mux pattern).isSome then
    .error "http: multiple registrations".data
  else .ok (mux ++ [(pattern, ph)])

/-- Handler.Handle of handler.go and part_004: always construct a fresh
pattern handler (a clone of the root options) and hand it to
ServeMux.Handle. -/
def handleMux (st : MuxState) (pattern : GoStr) : Except GoStr (Nat × MuxState) :=
  match muxHandle st.entries pattern st.nextId with
  | .error e => .error e
  | .ok m => .ok (st.nextId, { entries := m, nextId := st.nextId + 1 })

/-! ## The field binder (valuesToStruct and structToValues, utils.go)

Struct values are embedded as lists of fields paired with typed values.
The reflective field-name resolution (parseJSONField and friends) is an
out-of-scope collaborator, so a field enters the model with its resolved
parameter name (empty when the resolution skips the field: unexported,
anonymous, or a dash tag) and its omitempty flag.  The serializer is a
black box; for the types the binder feeds through it wholesale (floats,
byte slices, timestamps) a value is represented by its canonical
serialized text, on which the serializer round-trip is the identity by
construction; booleans and the integer families, whose literals the
serializer fixes exactly, are modelled concretely. -/

inductive IntKind
  | i8 | i16 | i32 | i64 | u8 | u16 | u32 | u64
  deriving DecidableEq, Repr

/-- Whether the Go integer family is signed. -/
def IntKind.signed : IntKind → Bool
  | .i8 | .i16 | .i32 | .i64 => true
  | _ => false

/-- Smallest value of the family. -/
def IntKind.lo : IntKind → Int
  | .i8 => -(2 ^ 7)
  | .i16 => -(2 ^ 15)
  | .i32 => -(2 ^ 31)
  | .i64 => -(2 ^ 63)
  | _ => 0

/-- Largest value of the family. -/
def IntKind.hi : IntKind → Int
  | .i8 => 2 ^ 7 - 1
  | .i16 => 2 ^ 15 - 1
  | .i32 => 2 ^ 31 - 1
  | .i64 => 2 ^ 63 - 1
  | .u8 => 2 ^ 8 - 1
  | .u16 => 2 ^ 16 - 1
  | .u32 => 2 ^ 32 - 1
  | .u64 => 2 ^ 64 - 1

/-- The kinds handled through the serializer as canonical text. -/
inductive OpaqueKind
  | oFloat32 | oFloat64 | oBytes | oTime
  deriving DecidableEq, Repr

inductive FVal
  | vBool (b : Bool)
  | vInt (k : IntKind) (n : Int)
  | vStr (s : GoStr)
  | vOpq (k : OpaqueKind) (txt : GoStr)
  deriving DecidableEq, Repr

/-- A struct field after the name-resolution collaborator ran. -/
structure GoField where
  name : GoStr
  omitempty : Bool
  deriving DecidableEq, Repr

abbrev StructVal := List (GoField × FVal)

/-- Canonical serialized text of the zero timestamp. -/
def zeroTimeTxt : GoStr := "0001-01-01T00:00:00Z".data

/-- reflect Value.IsZero combined with the empty-length check
structToValues adds for slices.  On the canonical-text representation a
nil byte slice renders as the empty text (marshal gives null, whose
unquote fails and the code keeps the empty result) exactly like the
empty slice, so both are the zero of that kind. -/
def FVal.isZero : FVal → Bool
  | .vBool b => !b
  | .vInt _ n => decide (n = 0)
  | .vStr s => s.isEmpty
  | .vOpq .oFloat32 t => decide (t = "0".data ∨ t = "-0".data)
  | .vOpq .oFloat64 t => decide (t = "0".data ∨ t = "-0".data)
  | .vOpq .oBytes t => t.isEmpty
  | .vOpq .oTime t => decide (t = zeroTimeTxt)

/-- The zero value of the same static type. -/
def FVal.zeroed : FVal → FVal
  | .vBool _ => .vBool false
  | .vInt k _ => .vInt k 0
  | .vStr _ => .vStr []
  | .vOpq .oFloat32 _ => .vOpq .oFloat32 "0".data
  | .vOpq .oFloat64 _ => .vOpq .oFloat64 "0".data
  | .vOpq .oBytes _ => .vOpq .oBytes []
  | .vOpq .oTime _ => .vOpq .oTime zeroTimeTxt

/-- A value representable in its declared family (always true except
for out-of-range integers, which a Go value of that type cannot hold). -/
def FVal.valid : FVal → Bool
  | .vInt k n => decide (k.lo ≤ n ∧ n ≤ k.hi)
  | _ => true

/-- The per-field rendering of structToValues: strings are set directly,
byte slices and timestamps go through marshal plus unquote (identity on
the canonical-text representation), everything else through marshal
(true or false for booleans, decimal for integers, canonical text for
floats). -/
def FVal.enc : FVal → GoStr
  | .vBool b => if b then "true".data else "false".data
  | .vInt _ n => intToDecStr n
  | .vStr s => s
  | .vOpq _ t => t

/-- The serializer on a boolean literal. -/
def parseJSONBool (s : GoStr) : Option Bool :=
  if s = "true".data then some true
  else if s = "false".data then some false
  else none

/-- The serializer on an integer literal for the given family: a decimal
JSON number literal (minus sign only for signed families) within the
range of the family. -/
def parseJSONInt (k : IntKind) (s : GoStr) : Option Int :=
  match s with
  | [] => none
  | c :: t =>
    if c = '-' then
      if k.signed then
        (jsonNatLit t).bind fun n =>
          if k.lo ≤ -(n : Int) then some (-(n : Int)) else none
      else none
    else
      (jsonNatLit (c :: t)).bind fun n =>
        if (n : Int) ≤ k.hi then some ((n : Int)) else none

/-- The per-field decoding of valuesToStruct, switching on the static
type of the target field exactly as the Go type switch does: strings
are stored directly, byte slices and timestamps go through quote plus
unmarshal (identity on canonical texts), booleans and integers through
unmarshal of the literal, floats through unmarshal (canonical text). -/
def FVal.dec : FVal → GoStr → Except GoStr FVal
  | .vStr _, s => .ok (.vStr s)
  | .vBool _, s =>
    match parseJSONBool s with
    | some b => .ok (.vBool b)
    | none => .error "unable to unmarshal field value".data
  | .vInt k _, s =>
    match parseJSONInt k s with
    | some n => .ok (.vInt k n)
    | none => .error "unable to unmarshal field value".data
  | .vOpq k _, s => .ok (.vOpq k s)

/-- url.Values: a string-keyed parameter map with single values as Set
produces them. -/
abbrev Values := List (GoStr × GoStr)

/-- url.Values.Set: replace the value under the key or insert it. -/
def vSet : Values → GoStr → GoStr → Values
  | [], k, v => [(k, v)]
  | e :: rest, k, v => if e.1 = k then (k, v) :: rest else e :: vSet rest k v

/-- url.Values.Has. -/
def vHas : Values → GoStr → Bool
  | [], _ => false
  | e :: rest, k => if e.1 = k then true else vHas rest k

/-- url.Values.Get: the first value under the key, empty when absent. -/
def vGet : Values → GoStr → GoStr
  | [], _ => []
  | e :: rest, k => if e.1 = k then e.2 else vGet rest k

/-- The loop of structToValues over the fields, accumulating the values
map: skip fields the name resolution removed, skip omitempty fields
whose value is zero (or an empty collection), and set the rendered value
under the resolved name. -/
def structToValuesAux : StructVal → Values → Values
  | [], acc => acc
  | fv :: rest, acc =>
    if fv.1.name = [] then structToValuesAux rest acc
    else if fv.1.omitempty = true ∧ fv.2.isZero = true then structToValuesAux rest acc
    else structToValuesAux rest (vSet acc fv.1.name fv.2.enc)

/-- structToValues (utils.go): render a struct value to a parameter map. -/
def structToValues (s : StructVal) : Values := structToValuesAux s []

/-- The per-field update of valuesToStruct: skip removed names, leave
the field untouched when the key is absent from the parameter map, else
decode the first value under the key into the field. -/
def bindField (vs : Values) (fv : GoField × FVal) : Except GoStr (GoField × FVal) :=
  if fv.1.name = [] then .ok fv
  else if vHas vs fv.1.name = false then .ok fv
  else
    match fv.2.dec (vGet vs fv.1.name) with
    | .ok v2 => .ok (fv.1, v2)
    | .error e => .error e

/-- valuesToStruct (utils.go): walk the target struct fields in order,
binding each from the parameter map, stopping at the first decode
error. -/
def valuesToStruct (vs : Values) : StructVal → Except GoStr StructVal
  | [] => .ok []
  | fv :: rest =>
    match bindField vs fv with
    | .error e => .error e
    | .ok fv2 =>
      match valuesToStruct vs rest with
      | .error e => .error e
      | .ok rest2 => .ok (fv2 :: rest2)

/-- Whether structToValues emits the field into the parameter map. -/
def emitP (fv : GoField × FVal) : Prop :=
  ¬(fv.1.name = []) ∧ ¬(fv.1.omitempty = true ∧ fv.2.isZero = true)

instance : DecidablePred emitP := fun fv => by unfold emitP; infer_instance

/-- The parameter map structToValues produces, in closed form: the
emitted fields in order. -/
def encList (s : StructVal) : Values :=
  s.filterMap fun fv => if emitP fv then some (fv.1.name, fv.2.enc) else none

/-- The struct whose every field is the zero of its type: the decode
target of the round trip (a freshly cloned zero prototype). -/
def zeroOf (s : StructVal) : StructVal := s.map fun fv => (fv.1, fv.2.zeroed)

/-- Resolved parameter names do not collide: any two fields sharing a
name share the empty (skipped) name.  A query string can only encode
every field of a struct under this condition. -/
def namesOK (s : StructVal) : Prop :=
  s.Pairwise fun a b => a.1.name = b.1.name → a.1.name = []

instance : DecidablePred namesOK := fun s => by unfold namesOK; infer_instance

/-- What each field of the round-tripped struct holds: the original
value when the field was emitted, the zero of its type otherwise. -/
def roundTripped (s : StructVal) : StructVal :=
  s.map fun fv => if emitP fv then fv else (fv.1, fv.2.zeroed)

/-- Example struct for the round-trip witness, one field per family of
supported types (with an omitempty zero field and a skipped field). -/
def exRoundTrip : StructVal :=
  [({ name := "b".data, omitempty := false }, .vBool true),
   ({ name := "n".data, omitempty := false }, .vInt .i64 (-5)),
   ({ name := "u".data, omitempty := true }, .vInt .u8 0),
   ({ name := "s".data, omitempty := false }, .vStr "hi".data),
   ({ name := "f".data, omitempty := false }, .vOpq .oFloat64 "1.5".data),
   ({ name := "d".data, omitempty := true }, .vOpq .oBytes "aGk=".data),
   ({ name := "t".data, omitempty := false }, .vOpq .oTime "2020-01-02T03:04:05Z".data),
   ({ name := [], omitempty := false }, .vStr "skipped".data)]

/-- Example prototype whose field carries a nonzero default. -/
def protoC8 : StructVal := [({ name := "count".data, omitempty := false }, .vInt .i64 7)]

/-! ## Client-side response classification (Caller.Call tail)

The Caller.Call variant with the plain-text branch (the one appended to
errors.go) issues the request, then classifies the response: content
type validation (with text/plain acceptable only on a non-200 status),
the plain-text error branch, the choice of output prototype (the error
prototype only when the status is not 200 and one was configured), and
the decode.  The transport and the serializer are collaborators: the
context enters the model with the response status, content type, body,
and the results of decoding the body into either prototype. -/

def mtJSON : GoStr := "application/json".data
def mtPlain : GoStr := "text/plain".data

/-- validateContentType (utils.go): parse the media type (the
mime.ParseMediaType collaborator modelled as the lowercased trimmed
segment before the first semicolon, empty meaning a parse failure),
check it against the valid list, then check an optional charset
parameter (ascii or utf-8, anything else is an error). -/
def validateContentType (ct : GoStr) (valid : List GoStr) : Option GoStr :=
  match splitOnChar ';' ct with
  | [] => none
  | mtRaw :: ps =>
    let mt := lowerChars (trimChars mtRaw)
    if mt = [] then none
    else if ¬(mt ∈ valid) then none
    else
      let charsets := ps.filterMap fun p =>
        let sp := splitN2 '=' (trimChars p)
        if lowerChars (trimChars sp.1) = "charset".data then
          some (trimChars (sp.2.getD []))
        else none
      match charsets.head? with
      | none => some mt
      | some cs =>
        if lowerChars cs = "ascii".data ∨ lowerChars cs = "utf-8".data then some mt
        else none

inductive CallOutcome
  | invalidContentType
  | plainTextErr (msg : GoStr)
  | decodeFailed
  | errOutErr (v : Nat)
  | okOut (v : Nat)
  deriving DecidableEq, Repr

/-- The response-side inputs of one Caller.Call classification.  The
decoded values are abstract tags standing for the value decoded into
the success prototype and into the error prototype (none when the
serializer rejects the body); the proto copies stand for the untouched
prototype clones a HEAD response returns undecoded. -/
structure CallCtx where
  errOutConfigured : Bool
  statusCode : Int
  contentType : Option GoStr
  isHead : Bool
  body : GoStr
  decodeOut : Option Nat
  decodeErrOut : Option Nat
  outProtoCopy : Nat
  errProtoCopy : Nat
  deriving DecidableEq, Repr

/-- The output selection and decode tail of Caller.Call: the error
prototype is chosen exactly when the status is not 200 and an error
prototype was configured; a HEAD response skips the decode and returns
the prototype copy; a decode failure is a hard error; the decoded error
prototype is returned as the error result, everything else as a
success with a nil error. -/
def classifyTail (c : CallCtx) : CallOutcome :=
  let isErr : Bool := decide (c.statusCode ≠ 200) && c.errOutConfigured
  let decoded : Option Nat :=
    if c.isHead then some (if isErr then c.errProtoCopy else c.outProtoCopy)
    else if isErr then c.decodeErrOut else c.decodeOut
  match decoded with
  | none => .decodeFailed
  | some v => if isErr then .errOutErr v else .okOut v

/-- The classification of Caller.Call after the transport returned: an
empty content type skips validation; otherwise the type must be JSON,
or plain text on a non-200 status, in which case the (truncated) body
becomes the distinguishable plain-text error; then the decode tail
runs. -/
def classifyCall (c : CallCtx) : CallOutcome :=
  match c.contentType with
  | none => classifyTail c
  | some ct =>
    let valid := if c.statusCode ≠ 200 then [mtJSON, mtPlain] else [mtJSON]
    match validateContentType ct valid with
    | none => .invalidContentType
    | some mt =>
      if mt = mtPlain then .plainTextErr (c.body.take 1024)
      else classifyTail c

/-- Concrete context for the plain-text classification witness. -/
def ctxPlain : CallCtx :=
  { errOutConfigured := true, statusCode := 500,
    contentType := some "text/plain; charset=utf-8".data, isHead := false,
    body := "boom".data, decodeOut := none, decodeErrOut := none,
    outProtoCopy := 0, errProtoCopy := 1 }

/-- Concrete context for the structured-error classification witness. -/
def ctxErrOut : CallCtx :=
  { errOutConfigured := true, statusCode := 404,
    contentType := some "application/json".data, isHead := false,
    body := "e".data, decodeOut := some 2, decodeErrOut := some 3,
    outProtoCopy := 0, errProtoCopy := 1 }

/-- Concrete context for the lenient no-error-prototype witness. -/
def ctxLenient : CallCtx :=
  { errOutConfigured := false, statusCode := 404, contentType := none,
    isHead := false, body := "x".data, decodeOut := some 4,
    decodeErrOut := none, outProtoCopy := 0, errProtoCopy := 1 }

end Rapi

namespace Rapi

/-- C1: for every request, the per-request sent flag makes at most one
successful transition: from the fresh state the first call to send (in
either variant) writes exactly one response and sets the flag, and from
a state whose flag is set a second call writes nothing, panicking in the
part_004 variant and returning silently in the part_002 variant, so two
calls never produce two writes. -/
theorem c1_send_at_most_once (si₁ si₂ : SendInput) (prior : List Written) :
    (sendStepV004 si₁ freshWire).state = { sent := true, writes := [sendCore si₁] } ∧
    (sendStepV004 si₁ freshWire).panicMsg = none ∧
    (sendStepV002 si₁ freshWire).state = { sent := true, writes := [sendCore si₁] } ∧
    (sendStepV004 si₂ { sent := true, writes := prior }).state.writes = prior ∧
    (sendStepV004 si₂ { sent := true, writes := prior }).panicMsg = some "already sent".data ∧
    (sendStepV002 si₂ { sent := true, writes := prior }).state = { sent := true, writes := prior } ∧
    (sendStepV002 si₂ { sent := true, writes := prior }).panicMsg = none := by
  refine ⟨rfl, rfl, rfl, ?_, ?_, ?_, ?_⟩ <;> simp [sendStepV004, sendStepV002]

theorem stepRel_refl (a : ChainSt) : stepRel a a := Or.inl ⟨rfl, rfl⟩

theorem stepRel_trans {a b c : ChainSt} (h1 : stepRel a b) (h2 : stepRel b c) :
    stepRel a c := by
  rcases h1 with ⟨hs, hn⟩ | ⟨ha, hb, hn⟩
  · rcases h2 with ⟨hs2, hn2⟩ | ⟨hb2, hc2, hn2⟩
    · exact Or.inl ⟨hs2.trans hs, hn2.trans hn⟩
    · exact Or.inr ⟨hs ▸ hb2, hc2, by omega⟩
  · rcases h2 with ⟨hs2, hn2⟩ | ⟨hb2, hc2, hn2⟩
    · exact Or.inr ⟨ha, hs2.trans hb, hn2.trans hn⟩
    · rw [hb] at hb2; cases hb2

theorem stepRel_log (a : ChainSt) (l : List Nat) :
    stepRel a { a with log := l } := Or.inl ⟨rfl, rfl⟩

theorem chainSend_rel {st st2 : ChainSt} (h : chainSend st = .ok st2) :
    stepRel st st2 := by
  unfold chainSend at h
  by_cases hs : st.sent
  · simp [hs] at h
  · simp [hs] at h
    exact Or.inr ⟨by simpa using hs, by rw [← h], by rw [← h]⟩

theorem runTProg_rel {p : TProg} {st st2 : ChainSt}
    (h : runTProg p st = .ok st2) : stepRel st st2 := by
  induction p generalizing st with
  | tret => unfold runTProg at h; cases h; exact stepRel_refl _
  | tsend k ih =>
    unfold runTProg at h
    cases hcs : chainSend st with
    | error e => rw [hcs] at h; cases h
    | ok stm => rw [hcs] at h; exact stepRel_trans (chainSend_rel hcs) (ih h)

theorem runProg_rel {p : Prog} {nx : ChainSt → Except GoStr ChainSt}
    (hnx : ∀ s s2, nx s = .ok s2 → stepRel s s2) {st st2 : ChainSt}
    (h : runProg p nx st = .ok st2) : stepRel st st2 := by
  induction p generalizing st with
  | ret => unfold runProg at h; cases h; exact stepRel_refl _
  | psend k ih =>
    unfold runProg at h
    cases hcs : chainSend st with
    | error e => rw [hcs] at h; cases h
    | ok stm => rw [hcs] at h; exact stepRel_trans (chainSend_rel hcs) (ih h)
  | pnext k ih =>
    unfold runProg at h
    cases hcs : nx st with
    | error e => rw [hcs] at h; cases h
    | ok stm => rw [hcs] at h; exact stepRel_trans (hnx _ _ hcs) (ih h)

theorem entry_rel : ∀ (mws : List (Nat × Prog)) (term : Option (Nat × TProg))
    (st st2 : ChainSt), entry mws term st = .ok st2 → stepRel st st2 := by
  intro mws term
  induction mws with
  | nil =>
    intro st st2 h
    unfold entry at h
    cases hsent : st.sent with
    | true => rw [hsent] at h; simp at h; rw [← h]; exact stepRel_refl _
    | false =>
      rw [hsent] at h; simp at h
      cases term with
      | none => simp at h; rw [← h]; exact stepRel_refl _
      | some it =>
        simp at h
        have h2 := runTProg_rel h
        refine stepRel_trans ?_ h2
        exact Or.inl ⟨hsent.symm, rfl⟩
  | cons ip rest ih =>
    intro st st2 h
    unfold entry at h
    cases hsent : st.sent with
    | true => rw [hsent] at h; simp at h; rw [← h]; exact stepRel_refl _
    | false =>
      rw [hsent] at h; simp at h
      have h2 := runProg_rel (fun s s2 hss => ih s s2 hss) h
      refine stepRel_trans ?_ h2
      exact Or.inl ⟨hsent.symm, rfl⟩

theorem entry_sent {mws : List (Nat × Prog)} {term : Option (Nat × TProg)}
    {st : ChainSt} (hs : st.sent = true) : entry mws term st = .ok st := by
  cases mws with
  | nil => unfold entry; simp [hs]
  | cons ip rest => unfold entry; simp [hs]

theorem runProg_noNext {p : Prog} (hp : p.noNext = true)
    {nx : ChainSt → Except GoStr ChainSt} {st st2 : ChainSt}
    (h : runProg p nx st = .ok st2) : st2.log = st.log := by
  induction p generalizing st with
  | ret => unfold runProg at h; cases h; rfl
  | psend k ih =>
    unfold runProg at h
    cases hcs : chainSend st with
    | error e => rw [hcs] at h; cases h
    | ok stm =>
      rw [hcs] at h
      have hlog : stm.log = st.log := by
        unfold chainSend at hcs
        by_cases hs : st.sent
        · simp [hs] at hcs
        · simp [hs] at hcs; rw [← hcs]
      rw [ih (by simpa [Prog.noNext] using hp) h, hlog]
  | pnext k ih => simp [Prog.noNext] at hp

theorem entry_pass : ∀ (ids : List Nat) (t : Nat) (sends : Nat) (log : List Nat),
    entry (ids.map fun i => (i, Prog.pnext Prog.ret)) (some (t, TProg.tret))
        ⟨false, sends, log⟩ =
      .ok ⟨false, sends, log ++ ids ++ [t]⟩ := by
  intro ids t
  induction ids with
  | nil => intro sends log; unfold entry; simp [runTProg]
  | cons i rest ih =>
    intro sends log
    unfold entry
    simp only [List.map_cons, Bool.false_eq_true, if_false]
    unfold runProg
    rw [ih sends (log ++ [i])]
    simp [runProg]

/-- C2: the chain entry point built from the terminal handler outward
runs the middleware in registration order on the forward path (a
pass-through chain logs every middleware in list order and the terminal
handler last); for a chain of two middlewares with a terminal handler,
when the first middleware never invokes next (and calls send), neither
the second middleware nor the terminal handler ever runs; and every
wrapper checks the sent flag first, so a chain entered with the flag
already set runs nothing at all. -/
theorem c2_middleware_chain :
    (∀ (ids : List Nat) (t : Nat) (sends : Nat) (log : List Nat),
        entry (ids.map fun i => (i, Prog.pnext Prog.ret)) (some (t, TProg.tret))
            ⟨false, sends, log⟩ =
          .ok ⟨false, sends, log ++ ids ++ [t]⟩) ∧
    (∀ (idA : Nat) (pA : Prog) (idB : Nat) (pB : Prog) (idT : Nat) (pT : TProg)
        (st2 : ChainSt), pA.noNext = true → pA.usesSend = true →
        entry [(idA, pA), (idB, pB)] (some (idT, pT)) freshChain = .ok st2 →
        st2.log = [idA] ∧ (idB ≠ idA → idB ∉ st2.log) ∧ (idT ≠ idA → idT ∉ st2.log)) ∧
    (∀ (mws : List (Nat × Prog)) (term : Option (Nat × TProg)) (st : ChainSt),
        st.sent = true → entry mws term st = .ok st) := by
  refine ⟨entry_pass, ?_, fun mws term st hs => entry_sent hs⟩
  intro idA pA idB pB idT pT st2 hNoNext _ h
  unfold entry freshChain at h
  simp only [Bool.false_eq_true, if_false] at h
  have hlog := runProg_noNext hNoNext h
  simp at hlog
  refine ⟨hlog, ?_, ?_⟩ <;> intro hne <;> simp [hlog, hne]

theorem runChainV004_ok {mws : List (Nat × Prog)} {term : Option (Nat × TProg)}
    {st st1 : ChainSt} (he : entry mws term st = .ok st1) :
    runChainV004 mws term st =
      (if st1.sent then .ok st1 else .error "send must be called".data) := by
  unfold runChainV004
  rw [he]

theorem c10_helper_fresh_sends {st2 : ChainSt}
    (hr : stepRel freshChain st2) (hs : st2.sent = true) : st2.sends = 1 := by
  rcases hr with ⟨h1, _⟩ | ⟨_, _, h3⟩
  · rw [hs] at h1; cases h1
  · simpa [freshChain] using h3

/-- C10: if the chain entry point completes with the sent flag still
unset, the part_004 ServeHTTP tail panics with send must be called; and
every run of that tail that completes normally has performed exactly one
successful send. -/
theorem c10_send_must_be_called :
    (∀ (mws : List (Nat × Prog)) (term : Option (Nat × TProg)) (st1 : ChainSt),
        entry mws term freshChain = .ok st1 → st1.sent = false →
        runChainV004 mws term freshChain = .error "send must be called".data) ∧
    (∀ (mws : List (Nat × Prog)) (term : Option (Nat × TProg)) (st2 : ChainSt),
        runChainV004 mws term freshChain = .ok st2 →
        st2.sent = true ∧ st2.sends = 1) := by
  constructor
  · intro mws term st1 h hs
    rw [runChainV004_ok h, hs]
    simp
  · intro mws term st2 h
    cases he : entry mws term freshChain with
    | error e =>
      unfold runChainV004 at h
      rw [he] at h
      simp at h
    | ok st1 =>
      rw [runChainV004_ok he] at h
      cases hsent : st1.sent with
      | false => rw [hsent] at h; simp at h
      | true =>
        rw [hsent] at h; simp at h
        subst h
        exact ⟨hsent, c10_helper_fresh_sends (entry_rel mws term freshChain st1 he) hsent⟩

/-- Witness for C10 at a concrete chain: no middleware, a terminal
handler that sends once. -/
theorem c10_send_must_be_called_witness :
    (⟨true, 1, [0]⟩ : ChainSt).sent = true ∧ (⟨true, 1, [0]⟩ : ChainSt).sends = 1 :=
  c10_send_must_be_called.2 [] (some (0, TProg.tsend TProg.tret)) ⟨true, 1, [0]⟩ rfl

theorem mmFind_append : ∀ (l l2 : List (GoStr × Nat)) (k : GoStr),
    mmFind l k = none → mmFind (l ++ l2) k = mmFind l2 k := by
  intro l l2 k
  induction l with
  | nil => intro _; rfl
  | cons e rest ih =>
    intro h
    simp only [mmFind] at h
    simp only [List.cons_append, mmFind]
    by_cases hek : e.1 = k
    · rw [if_pos hek] at h; cases h
    · rw [if_neg hek] at h
      rw [if_neg hek]
      exact ih h

theorem mmFind_mmInsert_self : ∀ (l : List (GoStr × Nat)) (k : GoStr) (v : Nat),
    mmFind (mmInsert l k v) k = some v := by
  intro l k v
  induction l with
  | nil => simp [mmInsert, mmFind]
  | cons e rest ih =>
    simp only [mmInsert]
    by_cases hek : e.1 = k
    · rw [if_pos hek]; simp [mmFind]
    · rw [if_neg hek]
      simp only [mmFind]
      rw [if_neg hek]
      exact ih

theorem mmFind_mmInsert_other : ∀ (l : List (GoStr × Nat)) (k : GoStr) (v : Nat)
    (k2 : GoStr), ¬k2 = k → mmFind (mmInsert l k v) k2 = mmFind l k2 := by
  intro l k v k2 hne
  induction l with
  | nil => simp [mmInsert, mmFind]; intro h; exact absurd h.symm hne
  | cons e rest ih =>
    simp only [mmInsert]
    by_cases hek : e.1 = k
    · rw [if_pos hek]
      simp only [mmFind]
      have hk2 : ¬((k, v).1 = k2) := fun h => hne h.symm
      rw [if_neg hk2, if_neg (hek ▸ hk2)]
    · rw [if_neg hek]
      simp only [mmFind]
      by_cases hek2 : e.1 = k2
      · rw [if_pos hek2, if_pos hek2]
      · rw [if_neg hek2, if_neg hek2]
        exact ih

theorem registerInsert_find {handlers : List (GoStr × Nat)} {m : GoStr} {mh : Nat}
    {h2 : List (GoStr × Nat)} (h : registerInsert handlers m mh = .ok h2) :
    mmFind h2 m = some mh := by
  unfold registerInsert at h
  by_cases hdup : (mmFind handlers m).isSome
  · rw [if_pos hdup] at h; cases h
  · rw [if_neg hdup] at h
    simp only [Except.ok.injEq] at h
    subst h
    by_cases hg : m = sGET
    · rw [if_pos hg]
      rw [mmFind_mmInsert_other _ _ _ _ (by rw [hg]; decide)]
      exact mmFind_mmInsert_self _ _ _
    · rw [if_neg hg]
      exact mmFind_mmInsert_self _ _ _

/-- C3: a request method registered in the per-pattern map is dispatched
to exactly the method handler stored for it; an unregistered method
falls back to the method-agnostic empty-string handler when one exists;
when neither exists the outcome is the 405 error response, which by
construction invokes no method handler (hence no middleware or handler
body); and a successful Register stores the handler under the
uppercased method name. -/
theorem c3_method_dispatch :
    (∀ (handlers : List (GoStr × Nat)) (method : GoStr) (mh : Nat),
        mmFind handlers method = some mh →
        patternServeHTTP handlers method = .dispatched mh) ∧
    (∀ (handlers : List (GoStr × Nat)) (method : GoStr) (mh : Nat),
        mmFind handlers method = none → mmFind handlers [] = some mh →
        patternServeHTTP handlers method = .dispatched mh) ∧
    (∀ (handlers : List (GoStr × Nat)) (method : GoStr),
        mmFind handlers method = none → mmFind handlers [] = none →
        patternServeHTTP handlers method = .errorResponse 405) ∧
    (∀ (handlers : List (GoStr × Nat)) (method : GoStr) (mh : Nat)
        (inStruct : Bool) (h2 : List (GoStr × Nat)),
        registerV004 handlers method mh inStruct = .ok h2 →
        mmFind h2 (upperChars method) = some mh) := by
  refine ⟨?_, ?_, ?_, ?_⟩
  · intro handlers method mh h
    unfold patternServeHTTP
    rw [h]
  · intro handlers method mh h h0
    unfold patternServeHTTP
    rw [h, h0]
  · intro handlers method h h0
    unfold patternServeHTTP
    rw [h, h0]
  · intro handlers method mh inStruct h2 h
    simp only [registerV004] at h
    split at h
    · split at h
      · exact registerInsert_find h
      · cases h
    · split at h
      · exact registerInsert_find h
      · cases h

/-- Witness for C3 at concrete maps: direct hit, fallback, 405, and a
GET registration found under GET afterwards. -/
theorem c3_method_dispatch_witness :
    patternServeHTTP [(sGET, 5)] sGET = .dispatched 5 ∧
    patternServeHTTP [([], 7)] sPOST = .dispatched 7 ∧
    patternServeHTTP [] sPUT = .errorResponse 405 ∧
    mmFind [(sGET, 3), (sHEAD, 3)] (upperChars sGET) = some 3 :=
  ⟨c3_method_dispatch.1 [(sGET, 5)] sGET 5 (by decide),
   c3_method_dispatch.2.1 [([], 7)] sPOST 7 (by decide) (by decide),
   c3_method_dispatch.2.2.1 [] sPUT (by decide) (by decide),
   c3_method_dispatch.2.2.2 [] sGET 3 true [(sGET, 3), (sHEAD, 3)] rfl⟩

/-- C9 counterexample: in the handler.go and part_004 variants,
Handler.Handle always builds a fresh pattern handler and registers it
with ServeMux, so a second Handle call with the same pattern does not
return the previously created pattern handler: it is a setup-time fatal
error (ServeMux duplicate-registration panic). -/
theorem c9_handle_counterexample :
    handleMux ⟨[], 0⟩ "/x".data = .ok (0, ⟨[("/x".data, 0)], 1⟩) ∧
    handleMux ⟨[("/x".data, 0)], 1⟩ "/x".data =
      .error "http: multiple registrations".data := by
  constructor <;> rfl

/-- C9 amended: only the part_001 variant makes Handle idempotent per
pattern (a repeated call returns the same pattern handler and leaves the
state unchanged); in the handler.go and part_004 variants each call
constructs a fresh pattern handler and a repeated call with the same
pattern is a fatal ServeMux duplicate-registration error instead of
returning the same handler. -/
theorem c9_handle_amended :
    (∀ (st : HState001) (p : GoStr),
        handleV001 (handleV001 st p).2 p =
          ((handleV001 st p).1, (handleV001 st p).2)) ∧
    (∀ (st : MuxState) (p : GoStr), p ≠ [] → (mmFind st.entries p).isSome →
        handleMux st p = .error "http: multiple registrations".data) := by
  constructor
  · intro st p
    unfold handleV001
    cases hf : mmFind st.patternHandlers p with
    | some ph => simp [hf]
    | none =>
      simp only
      rw [mmFind_append _ _ _ hf]
      simp [mmFind, List.find?]
  · intro st p hne hdup
    unfold handleMux muxHandle
    rw [if_neg hne, if_pos hdup]

/-- Witness for C9 amended at concrete states. -/
theorem c9_handle_amended_witness :
    handleV001 (handleV001 ⟨[], 0⟩ "/x".data).2 "/x".data =
      ((handleV001 ⟨[], 0⟩ "/x".data).1, (handleV001 ⟨[], 0⟩ "/x".data).2) ∧
    handleMux ⟨[("/y".data, 4)], 5⟩ "/y".data =
      .error "http: multiple registrations".data :=
  ⟨c9_handle_amended.1 ⟨[], 0⟩ "/x".data,
   c9_handle_amended.2 ⟨[("/y".data, 4)], 5⟩ "/y".data (by decide) (by decide)⟩


/-- Witness for C2 at concrete chains: a two-step pass-through chain
logs in order; a first middleware that sends without calling next leaves
only its own probe in the log; a chain entered after a send runs
nothing. -/
theorem c2_middleware_chain_witness :
    (entry ([10, 20].map fun i => (i, Prog.pnext Prog.ret)) (some (30, TProg.tret))
        ⟨false, 7, [9]⟩ = .ok ⟨false, 7, [9] ++ [10, 20] ++ [30]⟩) ∧
    ((⟨true, 1, [1]⟩ : ChainSt).log = [1] ∧
      (2 ≠ 1 → 2 ∉ (⟨true, 1, [1]⟩ : ChainSt).log) ∧
      (3 ≠ 1 → 3 ∉ (⟨true, 1, [1]⟩ : ChainSt).log)) ∧
    entry [(5, Prog.ret)] none ⟨true, 4, []⟩ = .ok ⟨true, 4, []⟩ :=
  ⟨c2_middleware_chain.1 [10, 20] 30 7 [9],
   c2_middleware_chain.2.1 1 (Prog.psend Prog.ret) 2 Prog.ret 3 TProg.tret
     ⟨true, 1, [1]⟩ rfl rfl rfl,
   c2_middleware_chain.2.2 [(5, Prog.ret)] none ⟨true, 4, []⟩ rfl⟩

theorem hGet_hSet_self (h : Header) (k v : GoStr) : hGet (hSet h k v) k = some v := by
  simp [hGet, hSet]

theorem hGet_hSet_other (h : Header) (k v k2 : GoStr) (hne : ¬k2 = k) :
    hGet (hSet h k v) k2 = hGet h k2 := by
  simp [hGet, hSet, hne]

theorem hGet_hDel_self (h : Header) (k : GoStr) : hGet (hDel h k) k = none := by
  simp [hGet, hDel]

theorem hGet_hDel_other (h : Header) (k k2 : GoStr) (hne : ¬k2 = k) :
    hGet (hDel h k) k2 = hGet h k2 := by
  simp [hGet, hDel, hne]

theorem hGet_hAdd_preserve {h : Header} {k v : GoStr} (k2 v2 : GoStr)
    (hp : hGet h k = some v) : hGet (hAdd h k2 v2) k = some v := by
  unfold hGet hAdd
  unfold hGet at hp
  by_cases hk : k = k2
  · rw [if_pos hk]
    subst hk
    cases hl : h k with
    | nil => rw [hl] at hp; cases hp
    | cons a t =>
      rw [hl] at hp
      simp only [List.cons_append, List.head?] at hp ⊢
      exact hp
  · rw [if_neg hk]
    exact hp

theorem hGet_foldl_hAdd : ∀ (ext : List (GoStr × GoStr)) {acc : Header} {k v : GoStr},
    hGet acc k = some v →
    hGet (ext.foldl (fun a kv => hAdd a kv.1 kv.2) acc) k = some v := by
  intro ext
  induction ext with
  | nil => intro acc k v hp; exact hp
  | cons e rest ih => intro acc k v hp; exact ih (hGet_hAdd_preserve e.1 e.2 hp)

theorem sendHeadersFor_method (si : SendInput) (m : GoStr) (choice : EncChoice) :
    sendHeadersFor { si with method := m } choice = sendHeadersFor si choice := rfl

theorem sendCore_ok {si : SendInput} {choice : EncChoice}
    (hch : negotiate si = .ok choice) :
    sendCore si =
      (if si.method = sHEAD then
        { headers := sendHeadersFor si choice, code := si.code, body := none }
      else
        { headers := sendHeadersFor si choice, code := si.code,
          body := some (bodyFor choice (si.outJSON ++ ['\n'])) }) := by
  unfold sendCore
  rw [hch]

theorem sendCore_err {si : SendInput} {e : GoStr}
    (hch : negotiate si = .error e) :
    sendCore si = httpErrorWritten "invalid accept encoding".data 400 := by
  unfold sendCore
  rw [hch]

theorem sendCore_ignores_method (si : SendInput) (m1 m2 : GoStr) :
    (sendCore { si with method := m1 }).headers =
      (sendCore { si with method := m2 }).headers ∧
    (sendCore { si with method := m1 }).code =
      (sendCore { si with method := m2 }).code := by
  cases hneg : negotiate si with
  | error e =>
    have h1 : negotiate { si with method := m1 } = .error e := hneg
    have h2 : negotiate { si with method := m2 } = .error e := hneg
    rw [sendCore_err h1, sendCore_err h2]
    exact ⟨rfl, rfl⟩
  | ok choice =>
    have h1 : negotiate { si with method := m1 } = .ok choice := hneg
    have h2 : negotiate { si with method := m2 } = .ok choice := hneg
    rw [sendCore_ok h1, sendCore_ok h2]
    by_cases hm1 : m1 = sHEAD <;> by_cases hm2 : m2 = sHEAD <;>
      simp [hm1, hm2, sendHeadersFor_method]

/-- C4: registering GET also registers HEAD with the same method handler
(both lookups return it); the send closure computes status code and the
full header map without consulting the request method, so a HEAD
response carries exactly the headers and code of the equivalent GET
response; the HEAD branch returns before any body byte while the GET
branch writes the transformed payload; and when the no-op transform was
selected the Content-Length header carries the byte length of the JSON
output plus its trailing newline. -/
theorem c4_head_mirrors_get :
    (∀ (handlers : List (GoStr × Nat)) (mh : Nat) (inStruct : Bool)
        (h2 : List (GoStr × Nat)),
        registerV004 handlers sGET mh inStruct = .ok h2 →
        mmFind h2 sHEAD = some mh ∧ mmFind h2 sGET = some mh) ∧
    (∀ si : SendInput,
        (sendCore { si with method := sHEAD }).headers =
          (sendCore { si with method := sGET }).headers ∧
        (sendCore { si with method := sHEAD }).code =
          (sendCore { si with method := sGET }).code) ∧
    (∀ (si : SendInput) (choice : EncChoice), negotiate si = .ok choice →
        (sendCore { si with method := sHEAD }).body = none ∧
        (sendCore { si with method := sGET }).body =
          some (bodyFor choice (si.outJSON ++ ['\n']))) ∧
    (∀ si : SendInput, negotiate si = .ok .identity →
        hGet (sendCore { si with method := sHEAD }).headers hContentLength =
          some (natDigits (si.outJSON ++ ['\n']).length)) := by
  refine ⟨?_, fun si => sendCore_ignores_method si sHEAD sGET, ?_, ?_⟩
  · intro handlers mh inStruct h2 h
    simp only [registerV004] at h
    have hup : upperChars sGET = sGET := by decide
    rw [hup] at h
    rw [if_pos (Or.inr (Or.inl rfl))] at h
    cases hin : inStruct
    · rw [hin] at h; simp at h
    · rw [hin] at h
      simp only [if_true] at h
      unfold registerInsert at h
      by_cases hdup : (mmFind handlers sGET).isSome
      · rw [if_pos hdup] at h; cases h
      · rw [if_neg hdup] at h
        simp only [Except.ok.injEq] at h
        subst h
        simp only [if_true, if_pos]
        refine ⟨mmFind_mmInsert_self _ _ _, ?_⟩
        rw [mmFind_mmInsert_other _ _ _ _ (by decide)]
        exact mmFind_mmInsert_self _ _ _
  · intro si choice hch
    have hH : negotiate { si with method := sHEAD } = .ok choice := hch
    have hG : negotiate { si with method := sGET } = .ok choice := hch
    rw [sendCore_ok hH, sendCore_ok hG]
    constructor
    · rw [if_pos rfl]
    · rw [if_neg (by decide : ¬sGET = sHEAD)]
  · intro si hch
    have hH : negotiate { si with method := sHEAD } = .ok .identity := hch
    rw [sendCore_ok hH, if_pos rfl]
    show hGet (sendHeadersFor { si with method := sHEAD } .identity) hContentLength = _
    rw [sendHeadersFor_method]
    unfold sendHeadersFor
    exact hGet_hSet_self _ _ _

/-- Witness for C4 at a concrete registration and send input. -/
theorem c4_head_mirrors_get_witness :
    (mmFind [(sGET, 8), (sHEAD, 8)] sHEAD = some 8 ∧
      mmFind [(sGET, 8), (sHEAD, 8)] sGET = some 8) ∧
    ((sendCore { siPlain with method := sHEAD }).body = none ∧
      (sendCore { siPlain with method := sGET }).body =
        some (bodyFor .identity (siPlain.outJSON ++ ['\n']))) ∧
    hGet (sendCore { siPlain with method := sHEAD }).headers hContentLength =
      some (natDigits (siPlain.outJSON ++ ['\n']).length) :=
  ⟨c4_head_mirrors_get.1 [] 8 true [(sGET, 8), (sHEAD, 8)] rfl,
   c4_head_mirrors_get.2.2.1 siPlain .identity rfl,
   c4_head_mirrors_get.2.2.2 siPlain rfl⟩

/-- C6 counterexample: the header deflate, gzip offers gzip and encoding
is allowed, yet the response carries Content-Encoding deflate, because
getContentEncoder takes the first supported alternative in offer order
rather than preferring gzip. -/
theorem c6_gzip_counterexample :
    parseHTTPHeaderOptions "deflate, gzip".data =
      [⟨[(sDeflate, [])]⟩, ⟨[(sGzip, [])]⟩] ∧
    hGet (sendCore siDeflateGzip).headers hContentEncoding = some sDeflate ∧
    ¬(some sDeflate = some sGzip) := by
  refine ⟨by decide, ?_, by decide⟩
  rfl

/-- C6 amended: when encoding is allowed and the negotiation over the
acceptable-encodings header selects gzip, that is, the first alternative
whose leading token is a supported compressor is gzip (with q, when
present, a valid integer compression level between 0 and 9), the
response carries Content-Encoding gzip, omits Content-Length, and its
body is the gzip transform of the JSON serialization of the output plus
a trailing newline, so decompressing it returns exactly that
serialization. -/
theorem c6_gzip_amended (si : SendInput) (l : Int)
    (hallow : si.allowEncoding = true)
    (henc : getContentEncoder si.acceptEncoding = .ok (.egzip l))
    (hm : ¬si.method = sHEAD) :
    hGet (sendCore si).headers hContentEncoding = some sGzip ∧
    hGet (sendCore si).headers hContentLength = none ∧
    (sendCore si).body = some (.gzipped l (si.outJSON ++ ['\n'])) ∧
    decompressGzip (sendCore si).body = some (si.outJSON ++ ['\n']) := by
  have hneg : negotiate si = .ok (.egzip l) := by
    unfold negotiate
    rw [hallow]
    simpa using henc
  rw [sendCore_ok hneg, if_neg hm]
  refine ⟨?_, ?_, rfl, rfl⟩
  · show hGet (sendHeadersFor si (.egzip l)) hContentEncoding = some sGzip
    unfold sendHeadersFor
    rw [hGet_hDel_other _ _ _ (by decide), hGet_hSet_other _ _ _ _ (by decide)]
    exact hGet_foldl_hAdd si.extraHeaders (hGet_hSet_self _ _ _)
  · show hGet (sendHeadersFor si (.egzip l)) hContentLength = none
    unfold sendHeadersFor
    exact hGet_hDel_self _ _

/-- Witness for C6 amended at a concrete gzip offer with level 9. -/
theorem c6_gzip_amended_witness :
    hGet (sendCore siGzipQ9).headers hContentEncoding = some sGzip ∧
    hGet (sendCore siGzipQ9).headers hContentLength = none ∧
    (sendCore siGzipQ9).body = some (.gzipped 9 (siGzipQ9.outJSON ++ ['\n'])) ∧
    decompressGzip (sendCore siGzipQ9).body = some (siGzipQ9.outJSON ++ ['\n']) :=
  c6_gzip_amended siGzipQ9 9 rfl rfl (by decide)


theorem classifyCall_none {c : CallCtx} (h : c.contentType = none) :
    classifyCall c = classifyTail c := by
  unfold classifyCall
  rw [h]

theorem classifyCall_some {c : CallCtx} {ct : GoStr} (h : c.contentType = some ct) :
    classifyCall c =
      (match validateContentType ct
          (if c.statusCode ≠ 200 then [mtJSON, mtPlain] else [mtJSON]) with
       | none => .invalidContentType
       | some mt =>
         if mt = mtPlain then .plainTextErr (c.body.take 1024)
         else classifyTail c) := by
  unfold classifyCall
  rw [h]

theorem classifyTail_err {c : CallCtx} {e : Nat} (hst : c.statusCode ≠ 200)
    (herr : c.errOutConfigured = true) (hh : c.isHead = false)
    (hdec : c.decodeErrOut = some e) : classifyTail c = .errOutErr e := by
  unfold classifyTail
  simp [hst, herr, hh, hdec]

theorem classifyTail_lenient {c : CallCtx} {v : Nat}
    (herr : c.errOutConfigured = false) (hh : c.isHead = false)
    (hdec : c.decodeOut = some v) : classifyTail c = .okOut v := by
  unfold classifyTail
  simp [herr, hh, hdec]

/-- C7: on a non-200 status, a validated text/plain content type makes
Call return the distinguishable plain-text-error value carrying the
(truncated) body; with an error-output prototype configured, a body
that decodes into that prototype is returned as the error result; with
no error-output prototype, the body is decoded into the success-output
prototype and returned with a nil error. -/
theorem c7_caller_classification :
    (∀ (c : CallCtx) (ct : GoStr), c.statusCode ≠ 200 → c.contentType = some ct →
        validateContentType ct [mtJSON, mtPlain] = some mtPlain →
        classifyCall c = .plainTextErr (c.body.take 1024)) ∧
    (∀ (c : CallCtx) (e : Nat), c.statusCode ≠ 200 → c.errOutConfigured = true →
        c.isHead = false → c.decodeErrOut = some e →
        (c.contentType = none ∨ ∃ ct, c.contentType = some ct ∧
          validateContentType ct [mtJSON, mtPlain] = some mtJSON) →
        classifyCall c = .errOutErr e) ∧
    (∀ (c : CallCtx) (v : Nat), c.statusCode ≠ 200 → c.errOutConfigured = false →
        c.isHead = false → c.decodeOut = some v →
        (c.contentType = none ∨ ∃ ct, c.contentType = some ct ∧
          validateContentType ct [mtJSON, mtPlain] = some mtJSON) →
        classifyCall c = .okOut v) := by
  refine ⟨?_, ?_, ?_⟩
  · intro c ct hst hct hval
    rw [classifyCall_some hct, if_pos hst, hval]
    simp
  · intro c e hst herr hh hdec hcc
    rcases hcc with hnone | ⟨ct, hct, hval⟩
    · rw [classifyCall_none hnone]
      exact classifyTail_err hst herr hh hdec
    · rw [classifyCall_some hct, if_pos hst, hval]
      simp only []
      rw [if_neg (by decide : ¬mtJSON = mtPlain)]
      exact classifyTail_err hst herr hh hdec
  · intro c v hst herr hh hdec hcc
    rcases hcc with hnone | ⟨ct, hct, hval⟩
    · rw [classifyCall_none hnone]
      exact classifyTail_lenient herr hh hdec
    · rw [classifyCall_some hct, if_pos hst, hval]
      simp only []
      rw [if_neg (by decide : ¬mtJSON = mtPlain)]
      exact classifyTail_lenient herr hh hdec

/-- Witness for C7 at the three concrete contexts. -/
theorem c7_caller_classification_witness :
    classifyCall ctxPlain = .plainTextErr (ctxPlain.body.take 1024) ∧
    classifyCall ctxErrOut = .errOutErr 3 ∧
    classifyCall ctxLenient = .okOut 4 :=
  ⟨c7_caller_classification.1 ctxPlain "text/plain; charset=utf-8".data
      (by decide) rfl (by decide),
   c7_caller_classification.2.1 ctxErrOut 3 (by decide) rfl rfl rfl
      (Or.inr ⟨"application/json".data, rfl, by decide⟩),
   c7_caller_classification.2.2 ctxLenient 4 (by decide) rfl rfl rfl (Or.inl rfl)⟩

theorem bindField_absent {vs : Values} {fv : GoField × FVal}
    (h : fv.1.name = [] ∨ vHas vs fv.1.name = false) :
    bindField vs fv = .ok fv := by
  unfold bindField
  rcases h with h | h
  · rw [if_pos h]
  · by_cases hn : fv.1.name = []
    · rw [if_pos hn]
    · rw [if_neg hn, if_pos h]

/-- C8 counterexample: the decoded input starts as a clone of the
registered prototype value (copyReflectValue, a serializer round trip
that preserves every supported field value), so a field whose name is
absent from the query keeps the prototype value, not the zero value:
with a prototype holding 7, the empty query decodes to 7. -/
theorem c8_zero_value_counterexample :
    valuesToStruct [] protoC8 = .ok protoC8 ∧
    ¬(FVal.vInt .i64 7 = FVal.vInt .i64 0) := by
  constructor
  · rfl
  · decide

/-- C8 amended: after binding, every field whose resolved name is empty
or absent from the query parameters holds exactly the corresponding
field value of the (cloned) prototype the binding started from; it is
the zero value only when the prototype field was zero. -/
theorem c8_prototype_value_amended :
    ∀ (vs : Values) (proto res : StructVal),
      valuesToStruct vs proto = .ok res →
      List.Forall₂
        (fun p r => (p.1.name = [] ∨ vHas vs p.1.name = false) → r = p)
        proto res := by
  intro vs proto
  induction proto with
  | nil =>
    intro res h
    unfold valuesToStruct at h
    simp only [Except.ok.injEq] at h
    subst h
    exact List.Forall₂.nil
  | cons fv rest ih =>
    intro res h
    unfold valuesToStruct at h
    cases hb : bindField vs fv with
    | error e => rw [hb] at h; simp only [] at h; cases h
    | ok fv2 =>
      rw [hb] at h
      simp only [] at h
      cases hr : valuesToStruct vs rest with
      | error e => rw [hr] at h; simp only [] at h; cases h
      | ok rest2 =>
        rw [hr] at h
        simp only [Except.ok.injEq] at h
        subst h
        refine List.Forall₂.cons ?_ (ih rest2 hr)
        intro habs
        have hfix := bindField_absent habs
        rw [hb] at hfix
        simp only [Except.ok.injEq] at hfix
        exact hfix

/-- Witness for C8 amended: binding a one-key query into a two-field
prototype leaves the absent-named field at the prototype value. -/
theorem c8_prototype_value_amended_witness :
    List.Forall₂
      (fun p r => (p.1.name = [] ∨
          vHas [("other".data, "9".data)] p.1.name = false) → r = p)
      protoC8 protoC8 :=
  c8_prototype_value_amended [("other".data, "9".data)] protoC8 protoC8 rfl


theorem natDigitsAux_acc : ∀ (fuel n : Nat) (acc : List Char), n < fuel →
    natDigitsAux fuel n acc = natDigitsAux fuel n [] ++ acc := by
  intro fuel
  induction fuel with
  | zero => intro n acc h; omega
  | succ f ih =>
    intro n acc h
    by_cases h10 : n < 10
    · simp [natDigitsAux, h10]
    · have hlt : n / 10 < f := by
        have := Nat.div_lt_self (by omega : 0 < n) (by omega : 1 < 10)
        omega
      simp only [natDigitsAux, h10, if_false]
      rw [ih (n / 10) (digitChar (n % 10) :: acc) hlt,
          ih (n / 10) [digitChar (n % 10)] hlt]
      simp

theorem natDigitsAux_fuel : ∀ (f1 f2 n : Nat), n < f1 → n < f2 →
    natDigitsAux f1 n [] = natDigitsAux f2 n [] := by
  intro f1
  induction f1 with
  | zero => intro f2 n h; omega
  | succ f ih =>
    intro f2 n h1 h2
    cases f2 with
    | zero => omega
    | succ g =>
      by_cases h10 : n < 10
      · simp [natDigitsAux, h10]
      · have hltf : n / 10 < f := by
          have := Nat.div_lt_self (by omega : 0 < n) (by omega : 1 < 10)
          omega
        have hltg : n / 10 < g := by
          have := Nat.div_lt_self (by omega : 0 < n) (by omega : 1 < 10)
          omega
        simp only [natDigitsAux, h10, if_false]
        rw [natDigitsAux_acc f _ _ hltf, natDigitsAux_acc g _ _ hltg]
        rw [ih g (n / 10) hltf hltg]

theorem natDigits_lt10 {n : Nat} (h : n < 10) : natDigits n = [digitChar n] := by
  simp [natDigits, natDigitsAux, h]

theorem natDigits_ge10 {n : Nat} (h : 10 ≤ n) :
    natDigits n = natDigits (n / 10) ++ [digitChar (n % 10)] := by
  have hlt : n / 10 < n := Nat.div_lt_self (by omega) (by omega)
  have step : natDigits n = natDigitsAux n (n / 10) [digitChar (n % 10)] := by
    unfold natDigits
    simp only [natDigitsAux, show ¬n < 10 by omega, if_false]
  rw [step, natDigitsAux_acc n (n / 10) _ hlt]
  rw [natDigitsAux_fuel n (n / 10 + 1) (n / 10) hlt (by omega)]
  rfl

theorem digitVal_digitChar {d : Nat} (h : d < 10) :
    digitVal (digitChar d) = some d := by
  interval_cases d <;> decide

theorem digitChar_ne_dash {d : Nat} (h : d < 10) : ¬digitChar d = '-' := by
  interval_cases d <;> decide

theorem digitChar_ne_zero {d : Nat} (h0 : 0 < d) (h : d < 10) :
    ¬digitChar d = '0' := by
  interval_cases d <;> decide

theorem parseDigitsAux_append : ∀ (xs ys : List Char) (acc : Nat),
    parseDigitsAux (xs ++ ys) acc =
      (parseDigitsAux xs acc).bind fun a => parseDigitsAux ys a := by
  intro xs
  induction xs with
  | nil => intro ys acc; rfl
  | cons c rest ih =>
    intro ys acc
    simp only [List.cons_append, parseDigitsAux]
    cases digitVal c with
    | none => rfl
    | some d => exact ih ys (acc * 10 + d)

theorem parseDigitsAux_natDigits : ∀ n : Nat, parseDigitsAux (natDigits n) 0 = some n := by
  intro n
  induction n using Nat.strong_induction_on with
  | _ n ih =>
    by_cases h10 : n < 10
    · rw [natDigits_lt10 h10]
      simp [parseDigitsAux, digitVal_digitChar h10]
    · rw [natDigits_ge10 (by omega)]
      rw [parseDigitsAux_append]
      have hlt : n / 10 < n := Nat.div_lt_self (by omega) (by omega)
      rw [ih (n / 10) hlt]
      show parseDigitsAux [digitChar (n % 10)] (n / 10) = some n
      simp only [parseDigitsAux, digitVal_digitChar (Nat.mod_lt n (by omega : 0 < 10))]
      congr 1
      omega

theorem natDigits_head : ∀ n : Nat, ∃ d rest, natDigits n = digitChar d :: rest ∧
    d < 10 ∧ (0 < n → 0 < d) := by
  intro n
  induction n using Nat.strong_induction_on with
  | _ n ih =>
    by_cases h10 : n < 10
    · exact ⟨n, [], natDigits_lt10 h10, h10, fun h => h⟩
    · have hlt : n / 10 < n := Nat.div_lt_self (by omega) (by omega)
      obtain ⟨d, rest, hd, hd10, hdpos⟩ := ih (n / 10) hlt
      refine ⟨d, rest ++ [digitChar (n % 10)], ?_, hd10, fun _ => ?_⟩
      · rw [natDigits_ge10 (by omega), hd]
        rfl
      · exact hdpos (by omega)

theorem jsonNatLit_natDigits : ∀ n : Nat, jsonNatLit (natDigits n) = some n := by
  intro n
  by_cases h0 : n = 0
  · subst h0
    rw [natDigits_lt10 (by omega)]
    decide
  · obtain ⟨d, rest, hd, hd10, hdpos⟩ := natDigits_head n
    have hdz : ¬digitChar d = '0' := digitChar_ne_zero (hdpos (by omega)) hd10
    rw [hd]
    simp only [jsonNatLit, hdz, if_false]
    rw [← hd]
    cases hnd : natDigits n with
    | nil => rw [hnd] at hd; cases hd
    | cons c cs =>
      simp only [parseDigits]
      rw [← hnd, parseDigitsAux_natDigits n]

theorem signed_of_lo_neg {k : IntKind} {n : Int} (h1 : k.lo ≤ n) (h2 : n < 0) :
    k.signed = true := by
  cases k <;> simp [IntKind.lo, IntKind.signed] at h1 ⊢ <;> omega

theorem parseJSONInt_neg (k : IntKind) (t : GoStr) (hs : k.signed = true) :
    parseJSONInt k ('-' :: t) =
      (jsonNatLit t).bind fun n =>
        if k.lo ≤ -(n : Int) then some (-(n : Int)) else none := by
  simp [parseJSONInt, hs]

theorem parseJSONInt_nonneg (k : IntKind) (c : Char) (t : GoStr) (hc : ¬c = '-') :
    parseJSONInt k (c :: t) =
      (jsonNatLit (c :: t)).bind fun n =>
        if (n : Int) ≤ k.hi then some ((n : Int)) else none := by
  simp [parseJSONInt, hc]

theorem parseJSONInt_intToDecStr (k : IntKind) (n : Int)
    (h1 : k.lo ≤ n) (h2 : n ≤ k.hi) : parseJSONInt k (intToDecStr n) = some n := by
  by_cases hneg : n < 0
  · unfold intToDecStr
    rw [if_pos hneg]
    rw [parseJSONInt_neg k _ (signed_of_lo_neg h1 hneg)]
    rw [jsonNatLit_natDigits]
    show (if k.lo ≤ -(((-n).toNat : Int)) then some (-(((-n).toNat : Int))) else none) =
      some n
    rw [Int.toNat_of_nonneg (by omega : (0 : Int) ≤ -n)]
    rw [if_pos (by omega : k.lo ≤ -(-n))]
    congr 1
    omega
  · unfold intToDecStr
    rw [if_neg hneg]
    obtain ⟨d, rest, hd, hd10, _⟩ := natDigits_head n.toNat
    rw [hd, parseJSONInt_nonneg k _ _ (digitChar_ne_dash hd10), ← hd]
    rw [jsonNatLit_natDigits]
    show (if ((n.toNat : Int)) ≤ k.hi then some ((n.toNat : Int)) else none) = some n
    rw [Int.toNat_of_nonneg (by omega : (0 : Int) ≤ n)]
    rw [if_pos h2]


theorem dec_zeroed_enc : ∀ v : FVal, v.valid = true →
    FVal.dec v.zeroed v.enc = .ok v := by
  intro v hv
  cases v with
  | vBool b => cases b <;> rfl
  | vInt k n =>
    have hr : k.lo ≤ n ∧ n ≤ k.hi := by
      simpa [FVal.valid] using hv
    show FVal.dec (.vInt k 0) (intToDecStr n) = .ok (.vInt k n)
    simp only [FVal.dec]
    rw [parseJSONInt_intToDecStr k n hr.1 hr.2]
  | vStr s => rfl
  | vOpq k t => cases k <;> rfl

theorem vSet_fresh : ∀ (vs : Values) (k v : GoStr), vHas vs k = false →
    vSet vs k v = vs ++ [(k, v)] := by
  intro vs k v
  induction vs with
  | nil => intro _; rfl
  | cons e rest ih =>
    intro h
    simp only [vHas] at h
    by_cases hek : e.1 = k
    · rw [if_pos hek] at h; cases h
    · rw [if_neg hek] at h
      simp only [vSet, hek, if_false, List.cons_append]
      rw [ih h]

theorem vHas_append : ∀ (a b : Values) (k : GoStr),
    vHas (a ++ b) k = (vHas a k || vHas b k) := by
  intro a b k
  induction a with
  | nil => rfl
  | cons e rest ih =>
    simp only [List.cons_append, vHas]
    by_cases hek : e.1 = k
    · simp [hek]
    · simp only [hek, if_false]
      exact ih

theorem structToValuesAux_spec : ∀ (s : StructVal) (acc : Values),
    namesOK s → (∀ fv ∈ s, emitP fv → vHas acc fv.1.name = false) →
    structToValuesAux s acc = acc ++ encList s := by
  intro s
  induction s with
  | nil => intro acc _ _; simp [structToValuesAux, encList]
  | cons fv rest ih =>
    intro acc hn hacc
    unfold namesOK at hn
    rw [List.pairwise_cons] at hn
    by_cases hname : fv.1.name = []
    · have hne : ¬emitP fv := fun he => he.1 hname
      simp only [structToValuesAux, hname, if_true]
      rw [ih acc hn.2 (fun g hg he => hacc g (List.mem_cons_of_mem fv hg) he)]
      simp [encList, hne]
    · by_cases hoz : fv.1.omitempty = true ∧ fv.2.isZero = true
      · have hne : ¬emitP fv := fun he => he.2 hoz
        simp only [structToValuesAux, hname, if_false, hoz, if_true]
        rw [ih acc hn.2 (fun g hg he => hacc g (List.mem_cons_of_mem fv hg) he)]
        simp [encList, hne]
      · have he : emitP fv := ⟨hname, hoz⟩
        simp only [structToValuesAux, hname, if_false, hoz]
        rw [vSet_fresh acc fv.1.name fv.2.enc (hacc fv (List.mem_cons_self fv rest) he)]
        rw [ih (acc ++ [(fv.1.name, fv.2.enc)]) hn.2 ?_]
        · simp only [encList, List.filterMap_cons, if_pos he, List.append_assoc,
            List.singleton_append]
        · intro g hg hge
          rw [vHas_append]
          have h1 : vHas acc g.1.name = false :=
            hacc g (List.mem_cons_of_mem fv hg) hge
          have h2 : vHas [(fv.1.name, fv.2.enc)] g.1.name = false := by
            simp only [vHas]
            rw [if_neg]
            intro heq
            exact he.1 (hn.1 g hg heq)
          rw [h1, h2]
          rfl

theorem structToValues_eq_encList {s : StructVal} (hn : namesOK s) :
    structToValues s = encList s := by
  unfold structToValues
  rw [structToValuesAux_spec s [] hn (fun g _ _ => rfl)]
  rfl

theorem vHas_encList_of_none : ∀ (s : StructVal) (k : GoStr),
    (∀ g ∈ s, emitP g → ¬g.1.name = k) → vHas (encList s) k = false := by
  intro s k
  induction s with
  | nil => intro _; rfl
  | cons g rest ih =>
    intro h
    by_cases he : emitP g
    · simp only [encList, List.filterMap_cons, if_pos he]
      simp only [vHas]
      rw [if_neg (h g (List.mem_cons_self g rest) he)]
      exact ih (fun g2 hg2 he2 => h g2 (List.mem_cons_of_mem g hg2) he2)
    · simp only [encList, List.filterMap_cons, if_neg he]
      exact ih (fun g2 hg2 he2 => h g2 (List.mem_cons_of_mem g hg2) he2)

theorem encList_lookup_emit : ∀ (s : StructVal) (fv : GoField × FVal), namesOK s →
    fv ∈ s → emitP fv →
    vHas (encList s) fv.1.name = true ∧ vGet (encList s) fv.1.name = fv.2.enc := by
  intro s
  induction s with
  | nil => intro fv _ hm; cases hm
  | cons g rest ih =>
    intro fv hn hm he
    unfold namesOK at hn
    rw [List.pairwise_cons] at hn
    rcases List.mem_cons.mp hm with rfl | hm2
    · simp only [encList, List.filterMap_cons, if_pos he]
      constructor
      · simp [vHas]
      · simp [vGet]
    · by_cases hg : emitP g
      · have hne : ¬g.1.name = fv.1.name := by
          intro heq
          exact hg.1 (hn.1 fv hm2 heq)
        simp only [encList, List.filterMap_cons, if_pos hg]
        simp only [vHas, vGet, hne, if_false]
        exact ih fv hn.2 hm2 he
      · simp only [encList, List.filterMap_cons, if_neg hg]
        exact ih fv hn.2 hm2 he

theorem encList_lookup_noemit : ∀ (s : StructVal) (fv : GoField × FVal), namesOK s →
    fv ∈ s → ¬emitP fv → ¬fv.1.name = [] →
    vHas (encList s) fv.1.name = false := by
  intro s
  induction s with
  | nil => intro fv _ hm; cases hm
  | cons g rest ih =>
    intro fv hn hm he hname
    unfold namesOK at hn
    rw [List.pairwise_cons] at hn
    rcases List.mem_cons.mp hm with rfl | hm2
    · simp only [encList, List.filterMap_cons, if_neg he]
      apply vHas_encList_of_none
      intro g2 hg2 _
      intro heq
      exact hname (hn.1 g2 hg2 heq.symm)
    · by_cases hg : emitP g
      · have hne : ¬g.1.name = fv.1.name := by
          intro heq
          exact hg.1 (hn.1 fv hm2 heq)
        simp only [encList, List.filterMap_cons, if_pos hg]
        simp only [vHas, hne, if_false]
        exact ih fv hn.2 hm2 he hname
      · simp only [encList, List.filterMap_cons, if_neg hg]
        exact ih fv hn.2 hm2 he hname

theorem bindField_emit {s : StructVal} {fv : GoField × FVal} (hn : namesOK s)
    (hm : fv ∈ s) (he : emitP fv) (hv : fv.2.valid = true) :
    bindField (encList s) (fv.1, fv.2.zeroed) = .ok fv := by
  obtain ⟨hhas, hget⟩ := encList_lookup_emit s fv hn hm he
  unfold bindField
  rw [if_neg he.1]
  rw [if_neg (show ¬vHas (encList s) fv.1.name = false by rw [hhas]; simp)]
  rw [hget]
  show (match FVal.dec fv.2.zeroed fv.2.enc with
    | .ok v2 => Except.ok (fv.1, v2)
    | .error e => Except.error e) = .ok fv
  rw [dec_zeroed_enc fv.2 hv]

theorem bindField_noemit {s : StructVal} {fv : GoField × FVal} (hn : namesOK s)
    (hm : fv ∈ s) (he : ¬emitP fv) :
    bindField (encList s) (fv.1, fv.2.zeroed) = .ok (fv.1, fv.2.zeroed) := by
  unfold bindField
  by_cases hname : fv.1.name = []
  · rw [if_pos hname]
  · rw [if_neg hname]
    rw [if_pos (encList_lookup_noemit s fv hn hm he hname)]

theorem valuesToStruct_map_ok : ∀ (t : StructVal) (vs : Values)
    (tgt : (GoField × FVal) → (GoField × FVal)),
    (∀ fv ∈ t, bindField vs (fv.1, fv.2.zeroed) = .ok (tgt fv)) →
    valuesToStruct vs (zeroOf t) = .ok (t.map tgt) := by
  intro t
  induction t with
  | nil => intro vs tgt _; rfl
  | cons fv rest ih =>
    intro vs tgt h
    show valuesToStruct vs ((fv.1, fv.2.zeroed) :: zeroOf rest) = _
    unfold valuesToStruct
    rw [h fv (List.mem_cons_self fv rest)]
    simp only []
    rw [ih vs tgt (fun g hg => h g (List.mem_cons_of_mem fv hg))]
    exact rfl

theorem isZero_zeroed : ∀ v : FVal, (FVal.zeroed v).isZero = true := by
  intro v
  cases v with
  | vBool _ => rfl
  | vInt _ _ => simp [FVal.zeroed, FVal.isZero]
  | vStr _ => rfl
  | vOpq k _ => cases k <;> simp [FVal.zeroed, FVal.isZero, zeroTimeTxt]

theorem roundTripped_fst (fv : GoField × FVal) :
    (if emitP fv then fv else (fv.1, fv.2.zeroed)).1 = fv.1 := by
  by_cases he : emitP fv <;> simp [he]

theorem namesOK_roundTripped {s : StructVal} (hn : namesOK s) :
    namesOK (roundTripped s) := by
  unfold roundTripped namesOK
  rw [List.pairwise_map]
  refine hn.imp_of_mem ?_
  intro a b _ _ hab
  rw [roundTripped_fst a, roundTripped_fst b]
  exact hab

theorem encList_roundTripped {s : StructVal} :
    encList (roundTripped s) = encList s := by
  unfold roundTripped encList
  rw [List.filterMap_map]
  apply List.filterMap_congr
  intro fv _
  by_cases he : emitP fv
  · simp [he]
  · simp only [Function.comp, if_neg he]
    have hne2 : ¬emitP (fv.1, fv.2.zeroed) := by
      intro h2
      apply he
      by_cases hname : fv.1.name = []
      · exact absurd hname h2.1
      · refine ⟨hname, ?_⟩
        intro hoz
        exact h2.2 ⟨hoz.1, isZero_zeroed fv.2⟩
    rw [if_neg hne2]

/-- C5: for a struct whose resolved field names do not collide and whose
integer fields are within their family ranges, decoding the parameter
map structToValues produced into a freshly zeroed struct of the same
shape succeeds, and re-encoding the decoded struct yields exactly the
same parameter map (query to struct to query round trip), covering
booleans, the signed and unsigned integer families, strings, and the
serializer-carried floats, byte slices and timestamps. -/
theorem c5_query_roundtrip (s : StructVal) (hn : namesOK s)
    (hv : ∀ fv ∈ s, fv.2.valid = true) :
    valuesToStruct (structToValues s) (zeroOf s) = .ok (roundTripped s) ∧
    structToValues (roundTripped s) = structToValues s := by
  have henc := structToValues_eq_encList hn
  constructor
  · rw [henc]
    apply valuesToStruct_map_ok s (encList s)
      (fun fv => if emitP fv then fv else (fv.1, fv.2.zeroed))
    intro fv hfv
    by_cases he : emitP fv
    · rw [if_pos he]
      exact bindField_emit hn hfv he (hv fv hfv)
    · rw [if_neg he]
      exact bindField_noemit hn hfv he
  · rw [structToValues_eq_encList (namesOK_roundTripped hn), henc]
    exact encList_roundTripped

/-- Witness for C5 at a concrete struct containing every supported
family: boolean, signed and unsigned integers, string, float, byte
slice and timestamp fields, with omitempty and skipped fields. -/
theorem c5_query_roundtrip_witness :
    valuesToStruct (structToValues exRoundTrip) (zeroOf exRoundTrip) =
      .ok (roundTripped exRoundTrip) ∧
    structToValues (roundTripped exRoundTrip) = structToValues exRoundTrip :=
  c5_query_roundtrip exRoundTrip (by decide) (by decide)

end Rapi
